import Mathlib

/-!
Verification of the scikit-rf example notebooks.

The development shallowly embeds the two notebooks of the repository:

* `doc/source/examples/metrology/NanoVNA_V2_4port-splitter.ipynb` — the
  `TwoPortOnePath` calibration and the nested loop assembling twelve
  corrected 2-port measurements into one 4-port network `splitter_cal`;
* the transmission-line properties notebook — the reflection-coefficient,
  SWR, and voltage/current formulas.

Library functions of scikit-rf itself (`apply_cal`, `zl_2_Gamma0`,
`zl_2_swr`, the media constructors) are not part of the repository's
source tree; where a claim depends on them they are modelled from the
specification, each such definition carrying a doc comment starting with
`Modelled from the spec:`.
-/

/- ## The 4-port assembly loop

Embedding of the notebook cell

    for i_src in range(4):
        for i_recv in range(4):
            if i_src != i_recv:
                ...
                dut_cal = cal.apply_cal((dut_raw_fwd, dut_raw_rev))
                splitter_cal.s[:, i_src, i_src] = dut_cal.s[:, 0, 0]
                splitter_cal.s[:, i_recv, i_src] = dut_cal.s[:, 1, 0]
                splitter_cal.s[:, i_src, i_recv] = dut_cal.s[:, 0, 1]
                splitter_cal.s[:, i_recv, i_recv] = dut_cal.s[:, 1, 1]

Each numpy column assignment `splitter_cal.s[:, a, b] = v` writes the whole
frequency column at once, so the aggregate matrix is modelled as a function
`Fin 4 → Fin 4 → α` whose values `α` are frequency columns (instantiating
`α := F → ℂ` recovers the per-frequency-point view). -/

/-- The ordered pairs `(i_src, i_recv)` visited by the nested loop, in loop
order: `i_src` outer, `i_recv` inner, skipping `i_src = i_recv`. -/
def loopPairs : List (Fin 4 × Fin 4) :=
  (List.finRange 4).flatMap fun iSrc =>
    ((List.finRange 4).filter fun iRecv => decide (iSrc ≠ iRecv)).map fun iRecv =>
      (iSrc, iRecv)

/-- A single numpy column assignment `s[:, r, c] = v` on the aggregate. -/
def writeEntry {α : Type} (m : Fin 4 → Fin 4 → α) (r c : Fin 4) (v : α) :
    Fin 4 → Fin 4 → α :=
  fun r' c' => if r' = r ∧ c' = c then v else m r' c'

/-- The four writes of one loop iteration with pair `p = (i_src, i_recv)`,
in source order, given the corrected 2-port `d = dut_cal.s`: each element is
a target entry of the aggregate together with the value written there. -/
def iterWrites {α : Type} (d : Fin 2 → Fin 2 → α) (p : Fin 4 × Fin 4) :
    List ((Fin 4 × Fin 4) × α) :=
  [((p.1, p.1), d 0 0), ((p.2, p.1), d 1 0), ((p.1, p.2), d 0 1), ((p.2, p.2), d 1 1)]

/-- Apply a list of writes to the aggregate matrix, in order. -/
def applyWrites {α : Type} (m : Fin 4 → Fin 4 → α) (ws : List ((Fin 4 × Fin 4) × α)) :
    Fin 4 → Fin 4 → α :=
  ws.foldl (fun m' w => writeEntry m' w.1.1 w.1.2 w.2) m

/-- The body of one loop iteration: `dutCal i_src i_recv` is the corrected
2-port produced by `cal.apply_cal` for that ordered pair. -/
def iterBody {α : Type} (dutCal : Fin 4 → Fin 4 → Fin 2 → Fin 2 → α)
    (m : Fin 4 → Fin 4 → α) (p : Fin 4 × Fin 4) : Fin 4 → Fin 4 → α :=
  applyWrites m (iterWrites (dutCal p.1 p.2) p)

/-- The whole assembly loop run from an arbitrary initial aggregate. -/
def assembleFrom {α : Type} (init : Fin 4 → Fin 4 → α)
    (dutCal : Fin 4 → Fin 4 → Fin 2 → Fin 2 → α) : Fin 4 → Fin 4 → α :=
  loopPairs.foldl (iterBody dutCal) init

/-- The assembly loop as in the notebook, starting from the all-zero
aggregate `np.zeros((len(f), 4, 4))`. -/
def assemble {α : Type} [Zero α]
    (dutCal : Fin 4 → Fin 4 → Fin 2 → Fin 2 → α) : Fin 4 → Fin 4 → α :=
  assembleFrom (fun _ _ => 0) dutCal

/-- The ordered pairs whose iteration touches the diagonal entry `(i, i)`:
those containing `i` as source or receiver, in loop order. -/
def contribPairs (i : Fin 4) : List (Fin 4 × Fin 4) :=
  loopPairs.filter fun p => decide (p.1 = i ∨ p.2 = i)

/-- The last loop iteration (in loop order) whose pair contains port `i`. -/
def lastContrib (i : Fin 4) : Fin 4 × Fin 4 :=
  ((contribPairs i).getLast?).getD (i, i)

/-- The value the iteration with pair `p` writes to the diagonal entry
`(i, i)`, for `p` containing `i`: `dut_cal.s[:, 0, 0]` when `i` is the
source of the pair, `dut_cal.s[:, 1, 1]` when it is the receiver. -/
def diagWrite {α : Type} (dutCal : Fin 4 → Fin 4 → Fin 2 → Fin 2 → α)
    (i : Fin 4) (p : Fin 4 × Fin 4) : α :=
  if p.1 = i then dutCal p.1 p.2 0 0 else dutCal p.1 p.2 1 1

/-- The loop order, fully enumerated. -/
theorem loopPairs_eq :
    loopPairs = [(0, 1), (0, 2), (0, 3), (1, 0), (1, 2), (1, 3),
                 (2, 0), (2, 1), (2, 3), (3, 0), (3, 1), (3, 2)] := by
  decide

/-- Claim C1: in the 4-port assembly loop, every iteration whose ordered pair
contains port `i` writes the diagonal entry `(i, i)` exactly once, and after
the loop that entry holds the value written by the last such iteration in
loop order (last write wins). -/
theorem diag_last_write_wins {α : Type} [Zero α]
    (dutCal : Fin 4 → Fin 4 → Fin 2 → Fin 2 → α) (i : Fin 4) :
    ((contribPairs i).all fun p =>
        ((iterWrites (dutCal p.1 p.2) p).filter fun w => decide (w.1 = (i, i))).length == 1)
      = true
    ∧ assemble dutCal i i = diagWrite dutCal i (lastContrib i) := by
  fin_cases i <;> exact ⟨rfl, rfl⟩

/-- Claim C3: the iteration of the assembly loop with ordered pair
`(i_src, i_recv) = (i, j)`, `i ≠ j`, modifies only the four aggregate entries
`(i,i)`, `(j,i)`, `(i,j)`, `(j,j)`: every entry `(k, l)` with `k` or `l`
outside `{i, j}` is left unchanged by that iteration (for frequency-column
values `α`, hence at every frequency point). -/
theorem iter_frame_effect {α : Type}
    (dutCal : Fin 4 → Fin 4 → Fin 2 → Fin 2 → α) (m : Fin 4 → Fin 4 → α)
    (i j k l : Fin 4) (_hij : i ≠ j)
    (hout : (k ≠ i ∧ k ≠ j) ∨ (l ≠ i ∧ l ≠ j)) :
    iterBody dutCal m (i, j) k l = m k l := by
  rcases hout with ⟨h1, h2⟩ | ⟨h1, h2⟩ <;>
    simp [iterBody, applyWrites, iterWrites, writeEntry, h1, h2]

/-- Witness for C3: the iteration for pair `(0, 1)` leaves entry `(2, 3)` of
a concrete integer-valued aggregate unchanged. -/
theorem iter_frame_effect_witness :
    (0 : Fin 4) ≠ 1
    ∧ (((2 : Fin 4) ≠ 0 ∧ (2 : Fin 4) ≠ 1) ∨ ((3 : Fin 4) ≠ 0 ∧ (3 : Fin 4) ≠ 1))
    ∧ iterBody (fun a b c d => ((a : ℤ) * 1000 + b * 100 + c * 10 + d))
        (fun k l => (k : ℤ) * 10 + l) (0, 1) 2 3
      = (2 : ℤ) * 10 + 3 :=
  ⟨by decide, Or.inl ⟨by decide, by decide⟩,
    iter_frame_effect (fun a b c d => ((a : ℤ) * 1000 + b * 100 + c * 10 + d))
      (fun k l => (k : ℤ) * 10 + l) 0 1 2 3 (by decide)
      (Or.inl ⟨by decide, by decide⟩)⟩

/-- Claim C9: the assembly loop performs exactly `4 × 3 = 12` iterations —
one `apply_cal` invocation per iteration — visiting each ordered pair
`(i, j)` with `i ≠ j` exactly once; and after the loop every one of the 16
aggregate entries has been written at least once: the result does not depend
on the zero initialization (running the loop from any initial aggregate
yields the same matrix as from `np.zeros`). -/
theorem assembly_full_coverage {α : Type} [Zero α]
    (dutCal : Fin 4 → Fin 4 → Fin 2 → Fin 2 → α) :
    loopPairs.length = 12 ∧ loopPairs.Nodup
    ∧ (∀ p : Fin 4 × Fin 4, p ∈ loopPairs ↔ p.1 ≠ p.2)
    ∧ ∀ init : Fin 4 → Fin 4 → α, assembleFrom init dutCal = assemble dutCal := by
  refine ⟨by decide, by decide, by decide, fun init => ?_⟩
  funext k l
  fin_cases k <;> fin_cases l <;>
    simp [assembleFrom, assemble, loopPairs_eq, iterBody, applyWrites, iterWrites,
      writeEntry]

/- ## The one-path calibration (`TwoPortOnePath`)

The calibration classes live in the scikit-rf library, outside this
repository's source tree; the notebook only calls them.  The definitions in
this section are therefore modelled from the specification (§4.1). -/

/-- Modelled from the spec: the fitted error-term set of the single measured
path (§4.1, "solve for the systematic error terms of that one-directional
measurement path") — directivity `e00`, reflection tracking `e01`, source
match `e11`, and transmission tracking `tr`, per frequency point. -/
structure ErrorTerms (K : Type) where
  e00 : K
  e01 : K
  e11 : K
  tr : K

/-- A raw one-path measurement: the notebook stores each acquisition as a
2-port "holding the data as S11 and S21" — only the forward reflection and
transmission receivers exist on the 1.5-port instrument. -/
structure RawMeas (K : Type) where
  s11 : K
  s21 : K

/-- Modelled from the spec: the raw reflection reading the one-path error
box produces for a device of actual reflection coefficient `g` —
`e00 + e01 * g / (1 - e11 * g)`, the standard three-term error model the
short/open/match solve inverts. -/
def measRefl {K : Type} [Field K] (f00 f01 f11 g : K) : K :=
  f00 + f01 * g / (1 - f11 * g)

/-- Modelled from the spec: error-corrected reflection coefficient, the
inverse of the three-term reflection model at the fitted terms. -/
def corrRefl {K : Type} [Field K] (E : ErrorTerms K) (m : K) : K :=
  (m - E.e00) / (E.e01 + E.e11 * (m - E.e00))

/-- Modelled from the spec: error-corrected transmission coefficient —
the raw transmission reading divided by the transmission tracking term. -/
def corrTrans {K : Type} [Field K] (E : ErrorTerms K) (m : K) : K :=
  m / E.tr

/-- Modelled from the spec: `TwoPortOnePath.apply_cal` on a
`(forward, reverse)` measurement pair of the same DUT (§4.1): the corrected
`S11`/`S21` come from correcting the forward measurement, and — "under the
assumption the DUT's reverse S12/S22 are recoverable only via the swapped
measurement" — the corrected `S22`/`S12` come from correcting the reverse
(physically flipped) measurement with the same one-path error terms. -/
def applyCal {K : Type} [Field K] (E : ErrorTerms K) (fwd rev : RawMeas K) :
    Fin 2 → Fin 2 → K :=
  fun a b =>
    if a = 0 then
      if b = 0 then corrRefl E fwd.s11 else corrTrans E rev.s21
    else
      if b = 0 then corrTrans E fwd.s21 else corrRefl E rev.s11

/-- Modelled from the spec: `cal.run()` — solve the error terms from the raw
readings of the short (`Γ = −1`), open (`Γ = +1`) and match (`Γ = 0`) ideal
standards and the raw transmission of the ideal through (`S21 = 1`):
the match reading gives the directivity, short and open give source match
and reflection tracking, the through transmission gives the tracking term. -/
def solveCal {K : Type} [Field K] (mShort mOpen mMatch mThru21 : K) : ErrorTerms K :=
  let e00 := mMatch
  let a := mOpen - mMatch
  let b := mShort - mMatch
  let e11 := (a + b) / (a - b)
  ⟨e00, a * (1 - e11), e11, mThru21⟩

/-- The ideal through standard: `S11 = S22 = 0`, `S21 = S12 = 1`
(`line.thru()` of the ideal 50-Ohm `DefinedGammaZ0` line). -/
def idealThru {K : Type} [Field K] : Fin 2 → Fin 2 → K :=
  fun a b => if a = b then 0 else 1

/-- The corrected 2-port the iteration for ordered pair `(i_src, i_recv)`
computes: the notebook loads `dut_raw_{i_recv+1}{i_src+1}.s2p` as the
forward and `dut_raw_{i_src+1}{i_recv+1}.s2p` as the reverse measurement
and applies the calibration — `file r c` models the network loaded from
`dut_raw_{r+1}{c+1}.s2p`. -/
def dutCalOf {K : Type} [Field K] (E : ErrorTerms K) (file : Fin 4 → Fin 4 → RawMeas K)
    (iSrc iRecv : Fin 4) : Fin 2 → Fin 2 → K :=
  applyCal E (file iRecv iSrc) (file iSrc iRecv)

/-- Claim C2: for every ordered port pair `(i, j)` with `i ≠ j`, after the
whole assembly loop the off-diagonal entry `s[j, i]` of the aggregate holds
exactly the value `dut_cal.s[1, 0]` produced by pair `(i, j)`'s own
`apply_cal` result: the other iteration touching that entry (pair `(j, i)`,
writing its `dut_cal.s[0, 1]`) writes the identical corrected value, since
both are the corrected transmission of the same raw file
`dut_raw_{j+1}{i+1}.s2p` through the same error terms. -/
theorem offdiag_own_calibration {K : Type} [Field K] (E : ErrorTerms K)
    (file : Fin 4 → Fin 4 → RawMeas K) (i j : Fin 4) (hij : i ≠ j) :
    assemble (dutCalOf E file) j i = dutCalOf E file i j 1 0 := by
  fin_cases i <;> fin_cases j <;> first
    | exact absurd rfl hij
    | rfl

/-- Witness for C2: concrete error terms and raw files, pair `(0, 1)`. -/
theorem offdiag_own_calibration_witness :
    (0 : Fin 4) ≠ 1
    ∧ assemble (dutCalOf (K := ℚ) ⟨0, 1, 0, 1⟩ fun r c => ⟨(r : ℚ), (c : ℚ)⟩) 1 0
      = dutCalOf (K := ℚ) ⟨0, 1, 0, 1⟩ (fun r c => ⟨(r : ℚ), (c : ℚ)⟩) 0 1 1 0 :=
  ⟨by decide,
    offdiag_own_calibration ⟨0, 1, 0, 1⟩ (fun r c => ⟨(r : ℚ), (c : ℚ)⟩) 0 1 (by decide)⟩

/-- Claim C6: round-trip identity of the calibration on the through
standard.  If the raw standard readings are consistent with the one-path
error model — produced by true terms `f00, f01, f11` from the ideal
reflections `−1, +1, 0` and a true transmission tracking `t ≠ 0` from the
ideal through (`S21 = 1`, reflection `0` into the matched port) — then
applying the solved calibration to the raw through measurement pair
reproduces the ideal through response exactly (the exact-arithmetic form of
"within numerical tolerance"). -/
theorem applyCal_thru_roundtrip {K : Type} [Field K] (f00 f01 f11 t : K) (ht : t ≠ 0) :
    applyCal
      (solveCal (measRefl f00 f01 f11 (-1)) (measRefl f00 f01 f11 1)
        (measRefl f00 f01 f11 0) t)
      ⟨measRefl f00 f01 f11 0, t⟩ ⟨measRefl f00 f01 f11 0, t⟩ = idealThru := by
  funext a b
  fin_cases a <;> fin_cases b <;>
    simp [applyCal, solveCal, corrRefl, corrTrans, idealThru, measRefl, ht]

/-- Witness for C6: true terms `f00 = 0, f01 = 1, f11 = 0, t = 1`. -/
theorem applyCal_thru_roundtrip_witness :
    (1 : ℚ) ≠ 0
    ∧ applyCal
        (solveCal (K := ℚ) (measRefl 0 1 0 (-1)) (measRefl 0 1 0 1) (measRefl 0 1 0 0) 1)
        ⟨measRefl 0 1 0 0, 1⟩ ⟨measRefl 0 1 0 0, 1⟩ = idealThru :=
  ⟨one_ne_zero, applyCal_thru_roundtrip 0 1 0 1 one_ne_zero⟩

/- ## Error propagation (claim C4)

Python exceptions are modelled with `Except` for the fallible steps (file
loads, the calibration solve, `apply_cal`), and the notebook installs no
handler, so an error anywhere aborts the rest of the computation.  The
aggregate, however, is a pre-existing numpy array mutated in place
(`splitter_cal.s[:, ., .] = ...`): an exception raised at some iteration
leaves `splitter_cal` in scope holding every write made by the earlier,
successful iterations.  The loop is therefore embedded with the aggregate
as state that survives the exception: the run returns the final state of
`splitter_cal.s` together with the propagating exception, if any. -/

/-- One iteration of the assembly loop under Python exception semantics: if
an exception is already propagating the iteration does not run; if the
pair's file loads or `apply_cal` raise, the exception starts propagating
and the in-place aggregate is left as it was; otherwise the iteration
performs the four writes of `iterWrites`. -/
def stepRun {ε α : Type} (dE : Fin 4 → Fin 4 → Except ε (Fin 2 → Fin 2 → α))
    (st : (Fin 4 → Fin 4 → α) × Option ε) (p : Fin 4 × Fin 4) :
    (Fin 4 → Fin 4 → α) × Option ε :=
  match st.2 with
  | some e => (st.1, some e)
  | none =>
    match dE p.1 p.2 with
    | .error e => (st.1, some e)
    | .ok d => (applyWrites st.1 (iterWrites d p), none)

/-- The assembly loop over the in-place aggregate: final aggregate state and
the propagating exception, if any. -/
def assembleRun {ε α : Type} [Zero α]
    (dE : Fin 4 → Fin 4 → Except ε (Fin 2 → Fin 2 → α)) :
    (Fin 4 → Fin 4 → α) × Option ε :=
  loopPairs.foldl (stepRun dE) (fun _ _ => 0, none)

/-- The whole notebook computation: if the calibration stage (loading the
four standards and solving the error terms — `calE`) raises, the loop never
runs and the aggregate is never filled; otherwise the loop runs with the
solved calibration, each iteration loading the pair's two files and applying
the calibration (`dE cal`). -/
def pipelineRun {ε σ α : Type} [Zero α] (calE : Except ε σ)
    (dE : σ → Fin 4 → Fin 4 → Except ε (Fin 2 → Fin 2 → α)) :
    (Fin 4 → Fin 4 → α) × Option ε :=
  match calE with
  | .error e => (fun _ _ => 0, some e)
  | .ok cal => assembleRun (dE cal)

/-- Once an exception is propagating, the remaining iterations leave the
state untouched. -/
theorem foldl_stepRun_absorb {ε α : Type}
    (dE : Fin 4 → Fin 4 → Except ε (Fin 2 → Fin 2 → α)) :
    ∀ (l : List (Fin 4 × Fin 4)) (m : Fin 4 → Fin 4 → α) (e : ε),
      l.foldl (stepRun dE) (m, some e) = (m, some e) := by
  intro l
  induction l with
  | nil => intro m e; rfl
  | cons p l ih => intro m e; exact ih m e

/-- While every step succeeds, the run computes the pure fold with no
exception. -/
theorem foldl_stepRun_ok {ε α : Type}
    (dE : Fin 4 → Fin 4 → Except ε (Fin 2 → Fin 2 → α))
    (d : Fin 4 → Fin 4 → Fin 2 → Fin 2 → α) :
    ∀ (l : List (Fin 4 × Fin 4)), (∀ q ∈ l, dE q.1 q.2 = .ok (d q.1 q.2)) →
      ∀ m, l.foldl (stepRun dE) (m, none) = (l.foldl (iterBody d) m, none) := by
  intro l
  induction l with
  | nil => intro _ m; rfl
  | cons p l ih =>
    intro h m
    have hp : dE p.1 p.2 = .ok (d p.1 p.2) := h p (List.mem_cons_self p l)
    have ht : ∀ q ∈ l, dE q.1 q.2 = .ok (d q.1 q.2) :=
      fun q hq => h q (List.mem_cons_of_mem p hq)
    rw [List.foldl_cons, List.foldl_cons]
    have hstep : stepRun dE (m, none) p = (iterBody d m p, none) := by
      simp only [stepRun, hp]
      rfl
    rw [hstep]
    exact ih ht (iterBody d m p)

/-- Counterexample to claim C4 as stated.  Run the loop with the iteration
for pair `(0, 1)` succeeding (corrected value `42` everywhere) and every
later load failing (error code `3`): the error occurs and surfaces — the
run ends with exception `3` propagating — yet the aggregate IS left holding
the corrected entry `s[1, 0] = 42` written by the earlier, successful
iteration `(0, 1)`, not its zero initialization: partial results survive
the abort, contrary to the claim's final clause. -/
theorem partial_aggregate_counterexample :
    (assembleRun (ε := ℕ)
        (fun i j => if i = 0 ∧ j = 1 then .ok fun _ _ => (42 : ℤ) else .error 3)).2
      = some 3
    ∧ (assembleRun (ε := ℕ)
        (fun i j => if i = 0 ∧ j = 1 then .ok fun _ _ => (42 : ℤ) else .error 3)).1 1 0
      = 42
    ∧ (42 : ℤ) ≠ 0 := by
  refine ⟨rfl, rfl, by decide⟩

/-- Claim C4 (amended): any error during calibration or multiport assembly
surfaces to the caller and the computation aborts — no completed 4-port
result is produced and no iteration after the failure runs.  If the
calibration stage fails, the loop never runs and the aggregate is left
empty (all zeros) with that error propagating; if the calibration succeeds
and the loop fails first at pair `p` (all earlier iterations successful),
the error propagates and the in-place aggregate is left holding exactly the
corrected entries written by the earlier, successful iterations — partial
results DO survive the abort; and when every step succeeds the run ends
with no exception and the fully assembled network. -/
theorem pipeline_aborts_on_error {ε σ α : Type} [Zero α] (calE : Except ε σ)
    (dE : σ → Fin 4 → Fin 4 → Except ε (Fin 2 → Fin 2 → α)) :
    (∀ e, calE = .error e → pipelineRun calE dE = (fun _ _ => 0, some e))
    ∧ (∀ cal (d : Fin 4 → Fin 4 → Fin 2 → Fin 2 → α)
        (l1 : List (Fin 4 × Fin 4)) (p : Fin 4 × Fin 4) (l2 : List (Fin 4 × Fin 4))
        (e : ε), calE = .ok cal → loopPairs = l1 ++ p :: l2 →
        (∀ q ∈ l1, dE cal q.1 q.2 = .ok (d q.1 q.2)) →
        dE cal p.1 p.2 = .error e →
          pipelineRun calE dE = (l1.foldl (iterBody d) fun _ _ => 0, some e))
    ∧ ∀ cal (d : Fin 4 → Fin 4 → Fin 2 → Fin 2 → α), calE = .ok cal →
        (∀ q ∈ loopPairs, dE cal q.1 q.2 = .ok (d q.1 q.2)) →
          pipelineRun calE dE = (assemble d, none) := by
  refine ⟨fun e he => ?_, fun cal d l1 p l2 e hc hsplit h1 hp => ?_, fun cal d hc hok => ?_⟩
  · rw [he]; rfl
  · rw [hc]
    show assembleRun (dE cal) = _
    rw [assembleRun, hsplit, List.foldl_append, foldl_stepRun_ok (dE cal) d l1 h1,
      List.foldl_cons]
    have hstep : stepRun (dE cal) (l1.foldl (iterBody d) fun _ _ => 0, none) p
        = (l1.foldl (iterBody d) fun _ _ => 0, some e) := by
      simp only [stepRun, hp]
    rw [hstep]
    exact foldl_stepRun_absorb (dE cal) l2 _ e
  · rw [hc]
    show assembleRun (dE cal) = _
    rw [assembleRun, foldl_stepRun_ok (dE cal) d loopPairs hok]
    rfl

/-- Witness for the amended C4: three concrete scenarios over error codes
`ℕ`, a trivial calibration state and integer-valued data — a calibration
failure leaves the aggregate empty with that error; a failure at the second
loop iteration `(0, 2)` after a successful first iteration `(0, 1)` leaves
the aggregate holding exactly iteration `(0, 1)`\'s writes with the error
propagating; and the all-success run yields the assembled matrix with no
exception. -/
theorem pipeline_aborts_on_error_witness :
    pipelineRun (ε := ℕ) (α := ℤ) (.error 7) (fun _ : Unit => fun _ _ => .ok fun _ _ => 0)
      = (fun _ _ => 0, some 7)
    ∧ pipelineRun (ε := ℕ) (α := ℤ) (.ok ())
        (fun _ : Unit => fun i j =>
          if i = 0 ∧ j = 1 then .ok fun _ _ => 42 else .error 3)
      = ([((0 : Fin 4), (1 : Fin 4))].foldl (iterBody fun _ _ _ _ => (42 : ℤ))
          fun _ _ => 0, some 3)
    ∧ pipelineRun (ε := ℕ) (α := ℤ) (.ok ()) (fun _ : Unit => fun i j => .ok fun a b =>
          (i : ℤ) * 1000 + j * 100 + a * 10 + b)
      = (assemble fun i j a b => (i : ℤ) * 1000 + j * 100 + a * 10 + b, none) :=
  ⟨(pipeline_aborts_on_error _ _).1 7 rfl,
    (pipeline_aborts_on_error _ _).2.1 () (fun _ _ _ _ => (42 : ℤ)) [(0, 1)] (0, 2)
      [(0, 3), (1, 0), (1, 2), (1, 3), (2, 0), (2, 1), (2, 3), (3, 0), (3, 1), (3, 2)]
      3 rfl (by decide)
      (by
        intro q hq
        rw [List.mem_singleton] at hq
        subst hq
        rfl)
      rfl,
    (pipeline_aborts_on_error _ _).2.2 () _ rfl fun q _ => rfl⟩

/- ## Write-once calibration model (claim C7)

`cal.run()` solves the error-term model once; every later
`cal.apply_cal(...)` only reads it.  The spec (§4.1, §5) asserts that
`apply_cal` has no side effects.  To check that the assembly loop of the
notebook indeed relies on nothing more, the loop is embedded threading an
explicit calibration state `σ` through an abstract state-passing
`apply_cal`; purity is the hypothesis that each call returns its state
unchanged. -/

/-- The assembly loop threading the calibration state: each iteration loads
the pair's forward and reverse raw measurements (`file p.2 p.1` and
`file p.1 p.2`), calls the state-passing `apply_cal`, performs the four
writes, and continues with the returned state. -/
def assembleS {σ μ α : Type} [Zero α] (ac : σ → μ × μ → (Fin 2 → Fin 2 → α) × σ)
    (file : Fin 4 → Fin 4 → μ) (c0 : σ) : (Fin 4 → Fin 4 → α) × σ :=
  loopPairs.foldl
    (fun mc p =>
      (applyWrites mc.1 (iterWrites (ac mc.2 (file p.2 p.1, file p.1 p.2)).1 p),
        (ac mc.2 (file p.2 p.1, file p.1 p.2)).2))
    (fun _ _ => 0, c0)

/-- Claim C7: if `apply_cal` is a pure read of the stored error-term model
(it returns its calibration state unchanged, as the spec asserts), then the
assembly loop leaves the model exactly as `cal.run()` solved it, every one
of the 12 invocations reads that identical write-once model, and the
produced aggregate is the pure function of the raw files and the initial
model — running the loop equals the stateless assembly. -/
theorem loop_reads_write_once_model {σ μ α : Type} [Zero α]
    (ac : σ → μ × μ → (Fin 2 → Fin 2 → α) × σ) (file : Fin 4 → Fin 4 → μ) (c0 : σ)
    (hpure : ∀ c m, (ac c m).2 = c) :
    (assembleS ac file c0).2 = c0
    ∧ (assembleS ac file c0).1
      = assemble fun iSrc iRecv => (ac c0 (file iRecv iSrc, file iSrc iRecv)).1 := by
  have key : ∀ (l : List (Fin 4 × Fin 4)) (m : Fin 4 → Fin 4 → α),
      l.foldl
        (fun mc p =>
          (applyWrites mc.1 (iterWrites (ac mc.2 (file p.2 p.1, file p.1 p.2)).1 p),
            (ac mc.2 (file p.2 p.1, file p.1 p.2)).2))
        (m, c0)
      = (l.foldl
          (iterBody fun iSrc iRecv => (ac c0 (file iRecv iSrc, file iSrc iRecv)).1) m,
        c0) := by
    intro l
    induction l with
    | nil => intro m; rfl
    | cons p l ih =>
      intro m
      rw [List.foldl_cons, hpure]
      exact ih _
  have h := key loopPairs (fun _ _ => 0)
  exact ⟨by rw [assembleS, h], by rw [assembleS, h]; rfl⟩

/-- Witness for C7: a concrete pure state-passing `apply_cal` over state `ℕ`
and integer data. -/
theorem loop_reads_write_once_model_witness :
    (assembleS (fun c m => (fun a b => m.1 * (a : ℤ) + m.2 * b, c))
        (fun r c => (r : ℤ) * 10 + c) 5).2 = 5
    ∧ (assembleS (fun c m => (fun a b => m.1 * (a : ℤ) + m.2 * b, c))
        (fun r c => (r : ℤ) * 10 + c) 5).1
      = assemble fun iSrc iRecv =>
          (fun a b =>
            ((iRecv : ℤ) * 10 + iSrc) * (a : ℤ) + ((iSrc : ℤ) * 10 + iRecv) * b) :=
  loop_reads_write_once_model
    (fun (c : ℕ) (m : ℤ × ℤ) => (fun a b => m.1 * (a : ℤ) + m.2 * b, c))
    (fun r c => (r : ℤ) * 10 + c) 5 (fun _ _ => rfl)

/- ## Shared frequency sweep (claim C8)

The notebook builds the ideal standards on the sweep of the raw short
measurement (`line = skrf.DefinedGammaZ0(frequency=short_raw.frequency,
Z0=50)`) and the aggregate 4-port on the same sweep
(`splitter_cal = skrf.Network(frequency=short_raw.frequency, s=s)`).
Networks carry their sweep as a list of frequency points (Hz). -/

/-- An `np`-port network: its frequency sweep (ordered frequency points in
Hz) and its S-parameter data per frequency index. -/
structure NetworkN (np : ℕ) where
  freq : List ℕ
  s : ℕ → Fin np → Fin np → ℚ × ℚ

/-- Modelled from the spec: a `DefinedGammaZ0` media object stores the
frequency sweep and reference impedance it is constructed with; the
networks its methods produce live on that sweep. -/
structure MediaD where
  freq : List ℕ
  z0 : ℚ

/-- Modelled from the spec: the `DefinedGammaZ0` constructor. -/
def definedGammaZ0 (freq : List ℕ) (z0 : ℚ) : MediaD := ⟨freq, z0⟩

/-- Modelled from the spec: `line.short(nports=2)` — the ideal short
(reflection `−1` on both ports) on the media's sweep. -/
def MediaD.shortStd (m : MediaD) : NetworkN 2 :=
  ⟨m.freq, fun _ a b => if a = b then (-1, 0) else (0, 0)⟩

/-- Modelled from the spec: `line.open(nports=2)` — the ideal open
(reflection `+1` on both ports) on the media's sweep. -/
def MediaD.openStd (m : MediaD) : NetworkN 2 :=
  ⟨m.freq, fun _ a b => if a = b then (1, 0) else (0, 0)⟩

/-- Modelled from the spec: `line.match(nports=2)` — the ideal match (zero
reflection) on the media's sweep. -/
def MediaD.matchStd (m : MediaD) : NetworkN 2 :=
  ⟨m.freq, fun _ _ _ => (0, 0)⟩

/-- Modelled from the spec: `line.thru()` — the ideal through on the
media's sweep. -/
def MediaD.thruStd (m : MediaD) : NetworkN 2 :=
  ⟨m.freq, fun _ a b => if a = b then (0, 0) else (1, 0)⟩

/-- The ideal standards list the notebook passes to `TwoPortOnePath`, built
from a `DefinedGammaZ0` line on the raw short measurement's sweep. -/
def idealsOf (shortRaw : NetworkN 2) : List (NetworkN 2) :=
  [(definedGammaZ0 shortRaw.freq 50).shortStd,
   (definedGammaZ0 shortRaw.freq 50).openStd,
   (definedGammaZ0 shortRaw.freq 50).matchStd,
   (definedGammaZ0 shortRaw.freq 50).thruStd]

/-- The empty aggregate 4-port the notebook constructs:
`skrf.Network(frequency=short_raw.frequency, s=np.zeros(...))`. -/
def splitterInit (shortRaw : NetworkN 2) : NetworkN 4 :=
  ⟨shortRaw.freq, fun _ _ _ => (0, 0)⟩

/-- All 2-port networks entering the calibration: the four ideals and the
four raw standard measurements. -/
def calNetworks (shortRaw openRaw matchRaw thruRaw : NetworkN 2) :
    List (NetworkN 2) :=
  idealsOf shortRaw ++ [shortRaw, openRaw, matchRaw, thruRaw]

/-- Error raised when sweep grids differ between inputs (spec §7). -/
inductive CalErr where
  | frequencyMismatch

/-- Modelled from the spec: the calibration constructor signals a
`FrequencyMismatchError` if the sweep grids of its input networks differ
(§7); on success it accepts the paired ideal and measured networks. -/
def calBuildE (shortRaw openRaw matchRaw thruRaw : NetworkN 2) :
    Except CalErr (List (NetworkN 2)) :=
  if (calNetworks shortRaw openRaw matchRaw thruRaw).all
      fun nw => decide (nw.freq = shortRaw.freq)
  then .ok (calNetworks shortRaw openRaw matchRaw thruRaw)
  else .error .frequencyMismatch

/-- The calibration stage accepting its inputs forces every network entering
it onto the raw short measurement's sweep. -/
theorem calBuildE_ok_freqs (sr o m t : NetworkN 2) (res : List (NetworkN 2))
    (h : calBuildE sr o m t = .ok res) :
    ∀ nw ∈ calNetworks sr o m t, nw.freq = sr.freq := by
  unfold calBuildE at h
  split at h
  · next hcond =>
    intro nw hnw
    exact of_decide_eq_true (List.all_eq_true.mp hcond nw hnw)
  · exact absurd h (by simp)

/-- Modelled from the spec: `apply_cal` at the network level — it signals a
`FrequencyMismatchError` if either measurement's sweep differs from the
calibration's sweep (§7, §3 "must match in length/value across compared
networks"); otherwise it returns the corrected 2-port on the shared sweep,
its S-data computed from the measurement pair by the error-term correction
(abstracted here as `corr`). -/
def applyCalNetE
    (corr : (ℕ → Fin 2 → Fin 2 → ℚ × ℚ) → (ℕ → Fin 2 → Fin 2 → ℚ × ℚ) →
      ℕ → Fin 2 → Fin 2 → ℚ × ℚ)
    (calFreq : List ℕ) (fwd rev : NetworkN 2) : Except CalErr (NetworkN 2) :=
  if fwd.freq = calFreq ∧ rev.freq = calFreq then .ok ⟨calFreq, corr fwd.s rev.s⟩
  else .error .frequencyMismatch

/-- Collect the results of a fallible computation over a list, aborting at
the first error (the loop body run for each pair in order). -/
def mapE {ε β γ : Type} (g : β → Except ε γ) : List β → Except ε (List γ)
  | [] => .ok []
  | x :: l =>
    match g x with
    | .error e => .error e
    | .ok y =>
      match mapE g l with
      | .error e => .error e
      | .ok ys => .ok (y :: ys)

/-- A successful `mapE` run means every element's computation succeeded and
every result comes from some element's successful computation. -/
theorem mapE_ok {ε β γ : Type} (g : β → Except ε γ) :
    ∀ (l : List β) (res : List γ), mapE g l = .ok res →
      (∀ x ∈ l, ∃ y, g x = .ok y) ∧ ∀ y ∈ res, ∃ x ∈ l, g x = .ok y := by
  intro l
  induction l with
  | nil =>
    intro res h
    injection h with h
    subst h
    exact ⟨fun x hx => absurd hx (List.not_mem_nil x),
      fun y hy => absurd hy (List.not_mem_nil y)⟩
  | cons x l ih =>
    intro res h
    rcases hx : g x with e | y
    · rw [mapE, hx] at h
      exact absurd h (by simp)
    · rcases hl : mapE g l with e | ys
      · rw [mapE, hx, hl] at h
        exact absurd h (by simp)
      · rw [mapE, hx, hl] at h
        injection h with h
        subst h
        obtain ⟨h1, h2⟩ := ih ys hl
        refine ⟨fun z hz => ?_, fun y' hy' => ?_⟩
        · rcases List.mem_cons.mp hz with hzx | hzl
          · subst hzx; exact ⟨y, hx⟩
          · exact h1 z hzl
        · rcases List.mem_cons.mp hy' with hyy | hys
          · subst hyy; exact ⟨x, List.mem_cons_self x l, hx⟩
          · obtain ⟨z, hz, hgz⟩ := h2 y' hys
            exact ⟨z, List.mem_cons_of_mem x hz, hgz⟩

/-- The whole calibration-and-assembly calculation on the network level:
build the calibration from the standards (sweep-checked, on the raw short
measurement's sweep), then run the loop, each iteration loading the pair's
forward and reverse raw DUT networks (`file r c` models
`dut_raw_{r+1}{c+1}.s2p`) and applying the calibration; the corrected
2-ports are returned in loop order. -/
def calcE
    (corr : (ℕ → Fin 2 → Fin 2 → ℚ × ℚ) → (ℕ → Fin 2 → Fin 2 → ℚ × ℚ) →
      ℕ → Fin 2 → Fin 2 → ℚ × ℚ)
    (sr o m t : NetworkN 2) (file : Fin 4 → Fin 4 → NetworkN 2) :
    Except CalErr (List (NetworkN 2)) :=
  match calBuildE sr o m t with
  | .error e => .error e
  | .ok _ =>
    mapE (fun p => applyCalNetE corr sr.freq (file p.2 p.1) (file p.1 p.2)) loopPairs

/-- The twelve raw DUT measurement networks the assembly loop loads (each
ordered pair's forward and reverse file). -/
def dutRawNetworks (file : Fin 4 → Fin 4 → NetworkN 2) : List (NetworkN 2) :=
  loopPairs.flatMap fun p => [file p.2 p.1, file p.1 p.2]

/-- The sweeps of every network in the whole calculation: the aggregate, the
ideals, the raw standard measurements, the raw DUT measurements, and the
corrected 2-port outputs `duts`. -/
def calcFreqs (sr o m t : NetworkN 2) (file : Fin 4 → Fin 4 → NetworkN 2)
    (duts : List (NetworkN 2)) : List (List ℕ) :=
  (splitterInit sr).freq ::
    (calNetworks sr o m t ++ dutRawNetworks file ++ duts).map NetworkN.freq

/-- A successful network-level `apply_cal` forces both measurements and its
output onto the calibration's sweep. -/
theorem applyCalNetE_ok_freqs (corr) (calFreq : List ℕ) (fwd rev nw : NetworkN 2)
    (h : applyCalNetE corr calFreq fwd rev = .ok nw) :
    fwd.freq = calFreq ∧ rev.freq = calFreq ∧ nw.freq = calFreq := by
  unfold applyCalNetE at h
  split at h
  · next hc =>
    injection h with h
    subst h
    exact ⟨hc.1, hc.2, rfl⟩
  · exact absurd h (by simp)

/-- Claim C8: the ideal standards (built via `DefinedGammaZ0`) and the
aggregate 4-port are constructed on the frequency sweep of the raw short
measurement; and whenever the whole calculation completes (no
`FrequencyMismatchError` from the calibration or from any of the twelve
`apply_cal` iterations), every network in the calculation — the aggregate,
the four ideals, the four raw standard measurements, the twelve raw DUT
measurement networks and the corrected 2-port outputs — is on that one
sweep, so every pair of networks compared or combined has sweeps matching
in values and hence in length. -/
theorem shared_frequency_sweep (corr) (sr o m t : NetworkN 2)
    (file : Fin 4 → Fin 4 → NetworkN 2) (res : List (NetworkN 2))
    (h : calcE corr sr o m t file = .ok res) :
    (∀ nw ∈ idealsOf sr, nw.freq = sr.freq)
    ∧ (splitterInit sr).freq = sr.freq
    ∧ (∀ nw ∈ dutRawNetworks file, nw.freq = sr.freq)
    ∧ (∀ nw ∈ res, nw.freq = sr.freq)
    ∧ ∀ f1 ∈ calcFreqs sr o m t file res, ∀ f2 ∈ calcFreqs sr o m t file res,
        f1 = f2 ∧ f1.length = f2.length := by
  have hcal : ∀ nw ∈ calNetworks sr o m t, nw.freq = sr.freq := by
    unfold calcE at h
    split at h
    · exact absurd h (by simp)
    · next res' hres' => exact calBuildE_ok_freqs sr o m t res' hres'
  have hloop : mapE (fun p => applyCalNetE corr sr.freq (file p.2 p.1) (file p.1 p.2))
      loopPairs = .ok res := by
    unfold calcE at h
    split at h
    · exact absurd h (by simp)
    · exact h
  obtain ⟨hpairs, hres⟩ := mapE_ok _ loopPairs res hloop
  have hfile : ∀ nw ∈ dutRawNetworks file, nw.freq = sr.freq := by
    intro nw hnw
    obtain ⟨p, hp, hmem⟩ := List.mem_flatMap.mp hnw
    obtain ⟨y, hy⟩ := hpairs p hp
    obtain ⟨hf, hr, _⟩ := applyCalNetE_ok_freqs corr sr.freq _ _ y hy
    rcases List.mem_cons.mp hmem with h1 | h1
    · rw [h1]; exact hf
    · rw [List.mem_singleton.mp h1]; exact hr
  have hduts : ∀ nw ∈ res, nw.freq = sr.freq := by
    intro nw hnw
    obtain ⟨p, _, hp⟩ := hres nw hnw
    exact (applyCalNetE_ok_freqs corr sr.freq _ _ nw hp).2.2
  refine ⟨fun nw hnw => hcal nw (List.mem_append_left _ hnw), rfl, hfile, hduts, ?_⟩
  have hone : ∀ f ∈ calcFreqs sr o m t file res, f = sr.freq := by
    intro f hf
    rcases List.mem_cons.mp hf with hf0 | hfm
    · exact hf0
    · obtain ⟨nw, hnw, rfl⟩ := List.mem_map.mp hfm
      rcases List.mem_append.mp hnw with hnw' | hnwd
      · rcases List.mem_append.mp hnw' with hnwc | hnwf
        · exact hcal nw hnwc
        · exact hfile nw hnwf
      · exact hduts nw hnwd
  intro f1 h1 f2 h2
  rw [hone f1 h1, hone f2 h2]
  exact ⟨rfl, rfl⟩

/-- A concrete 2-port on the sweep `[1000000, 2000000]`, for the C8
witness. -/
def nwWit : NetworkN 2 :=
  ⟨[1000000, 2000000], fun _ _ _ => (0, 0)⟩

/-- A concrete DUT file table for the C8 witness: every file holds
`nwWit`. -/
def fileWit : Fin 4 → Fin 4 → NetworkN 2 :=
  fun _ _ => nwWit

/-- A concrete error-term correction for the C8 witness. -/
def corrWit : (ℕ → Fin 2 → Fin 2 → ℚ × ℚ) → (ℕ → Fin 2 → Fin 2 → ℚ × ℚ) →
    ℕ → Fin 2 → Fin 2 → ℚ × ℚ :=
  fun f _ => f

/-- The corrected outputs of the C8 witness calculation. -/
def resWit : List (NetworkN 2) :=
  (calcE corrWit nwWit nwWit nwWit nwWit fileWit).toOption.getD []

/-- Witness for C8: the concrete calculation on four identical raw standards
and twelve identical DUT files, all on the sweep `[1000000, 2000000]`,
completes, and every network in it is on that sweep. -/
theorem shared_frequency_sweep_witness :
    (∀ nw ∈ idealsOf nwWit, nw.freq = nwWit.freq)
    ∧ (splitterInit nwWit).freq = nwWit.freq
    ∧ (∀ nw ∈ dutRawNetworks fileWit, nw.freq = nwWit.freq)
    ∧ (∀ nw ∈ resWit, nw.freq = nwWit.freq)
    ∧ ∀ f1 ∈ calcFreqs nwWit nwWit nwWit nwWit fileWit resWit,
        ∀ f2 ∈ calcFreqs nwWit nwWit nwWit nwWit fileWit resWit,
          f1 = f2 ∧ f1.length = f2.length :=
  shared_frequency_sweep corrWit nwWit nwWit nwWit nwWit fileWit resWit rfl

/- ## Transmission-line formulas (claims C5 and C10)

The transmission-line properties notebook calls `rf.zl_2_Gamma0` and
`rf.zl_2_swr` (library functions, modelled from the spec) and computes the
input voltage and current with inline formulas (embedded from the source
cell). The exact scenario of the spec uses the rational values
`Z0 = 75`, `ZL = 150`, so the exact-arithmetic model works over `ℚ`. -/

/-- Modelled from the spec: `zl_2_Gamma0(z0, zl)` — the reflection
coefficient a load `zl` induces on a line of characteristic impedance `z0`,
`Γ0 = (zl − z0) / (zl + z0)`. -/
def zl_2_Gamma0 (z0 zl : ℚ) : ℚ :=
  (zl - z0) / (zl + z0)

/-- Modelled from the spec: `zl_2_swr(z0, zl)` — the standing wave ratio,
`(1 + |Γ0|) / (1 − |Γ0|)`. -/
def zl_2_swr (z0 zl : ℚ) : ℚ :=
  (1 + |zl_2_Gamma0 z0 zl|) / (1 - |zl_2_Gamma0 z0 zl|)

/-- Claim C5: with exact inputs `Z0 = 75` and `ZL = 150`, the reflection
coefficient is exactly `1/3` and the standing wave ratio is exactly `2`. -/
theorem gamma0_swr_exact :
    zl_2_Gamma0 75 150 = 1 / 3 ∧ zl_2_swr 75 150 = 2 := by
  have hg : zl_2_Gamma0 75 150 = 1 / 3 := by norm_num [zl_2_Gamma0]
  refine ⟨hg, ?_⟩
  rw [zl_2_swr, hg]
  rw [abs_of_pos (by norm_num : (0 : ℚ) < 1 / 3)]
  norm_num

/-- The input voltage of the loaded line, from the notebook cell
`V_in = V_s * Z_in / (Z_s + Z_in)` (voltage divider). -/
def V_in {K : Type} [Field K] (Vs Zs Zin : K) : K :=
  Vs * Zin / (Zs + Zin)

/-- The input current of the loaded line, from the notebook cell
`I_in = V_s / (Z_s + Z_in)`. -/
def I_in {K : Type} [Field K] (Vs Zs Zin : K) : K :=
  Vs / (Zs + Zin)

/-- Claim C10: for every source voltage and every pair of impedances with
`Z_s + Z_in ≠ 0`, the computed input voltage and current satisfy Ohm's law
`V_in = Z_in * I_in` exactly (the voltage-divider and current formulas are
mutually consistent). -/
theorem vin_iin_ohm_consistent {K : Type} [Field K] (Vs Zs Zin : K)
    (_h : Zs + Zin ≠ 0) :
    V_in Vs Zs Zin = Zin * I_in Vs Zs Zin := by
  unfold V_in I_in
  rw [mul_comm Vs Zin, mul_div_assoc]

/-- Witness for C10: `V_s = 1`, `Z_s = 100`, `Z_in = 2` over `ℚ`. -/
theorem vin_iin_ohm_consistent_witness :
    (100 + 2 : ℚ) ≠ 0 ∧ V_in (1 : ℚ) 100 2 = 2 * I_in (1 : ℚ) 100 2 :=
  ⟨by norm_num, vin_iin_ohm_consistent 1 100 2 (by norm_num)⟩
